import Mathlib

/-!
Verification of the `niu` repository's packet protocol, authentication
middleware and connection hub against their natural-language specification.

Go source is shallowly embedded: bytes are `Nat` (values < 256 where it
matters), Go `int32`/`int64` arithmetic is `Int` with explicit wrapping,
fallible operations return `Option`, and external collaborators (signer,
cryptor, codec, KV store, JWT library) are explicit parameters or small
structures of functions.
-/

namespace Niu

/-! ### Packet protocol: data model (src/bytes_packet.go) -/

/-- Header length of a request packet (`metaLength` in the source). -/
def metaLength : Nat := 9

/-- Header length of a response packet (`responseMetaLength` in the source). -/
def responseMetaLength : Nat := 10

/-- Go `int32(x)`: two's-complement reinterpretation of the low 32 bits. -/
def toInt32 (n : Int) : Int :=
  let m := n % (4294967296 : Int)
  if m < 2147483648 then m else m - 4294967296

/-- Go `uint32` view of an integer (used to read the bytes of an `int32`). -/
def toUInt32 (x : Int) : Nat := (x % (4294967296 : Int)).toNat

/-- Go `byte(x)` for an integer-typed `x`: the low 8 bits. -/
def byteOfInt (x : Int) : Nat := (x % (256 : Int)).toNat

/-- `PacketMetaData` from src/bytes_packet.go: msgType (1 byte),
requestId (4 bytes), timestamp (4 bytes, seconds since 2025-01-01). -/
structure PacketMetaData where
  msgType : Nat
  requestId : Int
  timestamp : Int
deriving DecidableEq, Repr

/-- `RequestPacket` from src/bytes_packet.go: header plus decoded payload
(`none` models Go `nil`). -/
structure RequestPacket (α : Type) where
  meta : PacketMetaData
  payload : Option α
deriving DecidableEq, Repr

/-- The `Signer` collaborator used by the packet protocol: a fixed
signature length, a fallible `Sign` and a boolean `Verify`. -/
structure SignerM where
  sigLen : Nat
  sign : List Nat → Option (List Nat)
  verify : List Nat → List Nat → Bool

/-- The `Cryptor` collaborator: fallible `Encrypt`/`Decrypt` over bytes. -/
structure CryptorM where
  encrypt : List Nat → Option (List Nat)
  decrypt : List Nat → Option (List Nat)

/-- The `PayloadMarshaler` collaborator (JSON or MessagePack codec). -/
structure MarshalerM (α : Type) where
  marshal : α → Option (List Nat)
  unmarshal : List Nat → Option α

/-- `PacketProtocol` from src/bytes_packet.go: optional signer, optional
cryptor, and a codec. -/
structure PacketProtocol (α : Type) where
  signer : Option SignerM
  cryptor : Option CryptorM
  marshaler : MarshalerM α

/-- `PacketProtocol.GetMeta` (src/bytes_packet.go lines 48-55), embedded
verbatim: inputs shorter than `metaLength` are rejected; `requestId` is
built from bytes 1-4; the source computes `ts` from the same bytes 1-4
(line 53 repeats line 52), not from bytes 5-8. -/
def GetMeta (data : List Nat) : Option PacketMetaData :=
  if data.length < metaLength then none
  else
    let requestId : Nat :=
      (data.getD 1 0) <<< 24 ||| (data.getD 2 0) <<< 16 |||
        (data.getD 3 0) <<< 8 ||| (data.getD 4 0)
    let ts : Nat :=
      (data.getD 1 0) <<< 24 ||| (data.getD 2 0) <<< 16 |||
        (data.getD 3 0) <<< 8 ||| (data.getD 4 0)
    some ⟨data.getD 0 0, toInt32 requestId, toInt32 ts⟩

/-- One header byte as produced by `EncodeResp` in the source:
`byte(x>>s & 0x000F)` — note the `0x0F` mask keeps only the low nibble of
each byte. For the shifts 24/16/8/0 used there, the arithmetic shift of
the `int32` agrees with a logical shift of its `uint32` view on the low
four bits, so we express it on `toUInt32`. -/
def encNibble (u : Nat) (s : Nat) : Nat := (u >>> s) % 16

/-- `PacketProtocol.EncodeResp` (src/bytes_packet.go lines 57-90), embedded
verbatim with the clock reading passed in as `timestamp`. The source
masks every requestId/timestamp byte with `0x0F`, never appends the
`code` parameter, and appends the body only when a cryptor is configured. -/
def EncodeResp (p : PacketProtocol α) (msgType requestId : Int) (code : Nat)
    (payload : Option α) (timestamp : Int) : Option (List Nat) :=
  (match payload with
   | none => some []
   | some v => p.marshaler.marshal v).bind fun body =>
  let u := toUInt32 requestId
  let t := toUInt32 timestamp
  let out : List Nat :=
    [byteOfInt msgType,
     encNibble u 24, encNibble u 16, encNibble u 8, encNibble u 0,
     encNibble t 24, encNibble t 16, encNibble t 8, encNibble t 0]
  (if 0 < body.length then
     match p.cryptor with
     | some c => (c.encrypt body).map fun eb => out ++ eb
     | none => some out
   else some out).bind fun out2 =>
  match p.signer with
  | some s => (s.sign out2).map fun sg => out2 ++ sg
  | none => some out2

/-- `PacketProtocol.DecodeReq` (src/bytes_packet.go lines 92-129), embedded
verbatim: header via `GetMeta`; when a signer is configured the trailing
`sigLen` bytes are the signature, rejected unless
`metaLength ≤ signStart < len`; the (possibly decrypted) body is
unmarshaled only when non-empty, else the payload is `nil`. -/
def DecodeReq (p : PacketProtocol α) (data : List Nat) :
    Option (RequestPacket α) :=
  (GetMeta data).bind fun meta =>
  (match p.signer with
   | none => some (data.drop metaLength)
   | some s =>
     let signStart := data.length - s.sigLen
     if data.length ≤ signStart ∨ signStart < metaLength then none
     else
       let signature := data.drop signStart
       let body := (data.take signStart).drop metaLength
       let dataToVerify := data.take signStart
       if s.verify dataToVerify signature then some body else none
  ).bind fun body =>
  if 0 < body.length then
    (match p.cryptor with
     | some c => c.decrypt body
     | none => some body).bind fun body2 =>
    (p.marshaler.unmarshal body2).map fun pl =>
      RequestPacket.mk meta (some pl)
  else some (RequestPacket.mk meta none)

/-- A protocol with no signer, no cryptor and a trivial codec; a matched
encoder/decoder configuration for `nil` payloads. -/
def trivialProtocol : PacketProtocol Unit :=
  { signer := none, cryptor := none,
    marshaler := { marshal := fun _ => none, unmarshal := fun _ => none } }

/-- C1: decoding the bytes produced by the encoder does not return the
header that was encoded: with matched (empty) signer/cryptor/codec,
encoding msgType 0, requestId 16, timestamp 5, nil payload and decoding
the result yields requestId 0 and timestamp 0 — the `0x0F` byte masks in
`EncodeResp` and the overlapping byte ranges in `GetMeta` lose the
encoded values, refuting the round-trip claim. -/
theorem C1_roundtrip_fails :
    (EncodeResp trivialProtocol 0 16 0 none 5).bind
        (DecodeReq trivialProtocol) =
      some (RequestPacket.mk (PacketMetaData.mk 0 0 0) none) := by
  decide

/-- C2: `GetMeta` computes the timestamp from bytes 1-4 (the requestId
bytes), not from bytes 5-8: on input `[3,0,0,0,1,0,0,0,2]` it returns
timestamp 1 (equal to the requestId) where the claim requires 2. -/
theorem C2_timestamp_from_wrong_bytes :
    GetMeta [3, 0, 0, 0, 1, 0, 0, 0, 2] =
      some (PacketMetaData.mk 3 1 1) := by
  decide

/-- C3: `EncodeResp` emits a 9-byte header with no `code` byte at offset 9,
and masks each requestId byte with `0x0F`: encoding msgType 1,
requestId 16, code 7, nil payload at clock 0 yields nine bytes whose
offset-4 byte is 0 rather than the full low byte 16 of the requestId,
refuting the claimed 10-byte header layout. -/
theorem C3_header_bytes_wrong :
    EncodeResp trivialProtocol 1 16 7 none 0 =
      some [1, 0, 0, 0, 0, 0, 0, 0, 0] := by
  decide

/-- C4: with a signer of positive signature length L configured,
`DecodeReq` rejects every input shorter than `metaLength + L`, accepts a
verifying input of length exactly `metaLength + L` with a `nil` payload,
and with no signer accepts an input of length exactly `metaLength` with
a `nil` payload. -/
theorem C4_short_frame_boundaries {α : Type} (p : PacketProtocol α)
    (s : SignerM) (hs : p.signer = some s) (hL : 1 ≤ s.sigLen) :
    (∀ data : List Nat, data.length < metaLength + s.sigLen →
        DecodeReq p data = none) ∧
    (∀ data : List Nat, data.length = metaLength + s.sigLen →
        s.verify (data.take metaLength) (data.drop metaLength) = true →
        ∃ m, GetMeta data = some m ∧
          DecodeReq p data = some (RequestPacket.mk m none)) ∧
    (∀ q : PacketProtocol α, q.signer = none →
        ∀ data : List Nat, data.length = metaLength →
        ∃ m, GetMeta data = some m ∧
          DecodeReq q data = some (RequestPacket.mk m none)) := by
  refine ⟨?_, ?_, ?_⟩
  · intro data hlen
    by_cases hshort : data.length < metaLength
    · simp [DecodeReq, GetMeta, hshort]
    · push_neg at hshort
      have hcond : data.length ≤ data.length - s.sigLen ∨
          data.length - s.sigLen < metaLength := by
        right
        simp only [metaLength] at hshort hlen ⊢
        omega
      simp only [DecodeReq, GetMeta, not_lt.mpr hshort, if_false, hs]
      simp [hcond]
  · intro data hlen hver
    have hnlt : ¬ data.length < metaLength := by
      simp only [metaLength] at hlen ⊢
      omega
    have hm : GetMeta data = some
        ⟨data.getD 0 0,
         toInt32 ((data.getD 1 0) <<< 24 ||| (data.getD 2 0) <<< 16 |||
           (data.getD 3 0) <<< 8 ||| (data.getD 4 0)),
         toInt32 ((data.getD 1 0) <<< 24 ||| (data.getD 2 0) <<< 16 |||
           (data.getD 3 0) <<< 8 ||| (data.getD 4 0))⟩ := by
      simp only [GetMeta, hnlt, if_false]
    have hstart : data.length - s.sigLen = metaLength := by
      simp only [metaLength] at hlen ⊢
      omega
    have hcond : ¬ (data.length ≤ data.length - s.sigLen ∨
        data.length - s.sigLen < metaLength) := by
      simp only [metaLength] at hlen hstart ⊢
      omega
    have hbody : (data.take (data.length - s.sigLen)).drop metaLength = [] := by
      rw [hstart]
      have : (data.take metaLength).length ≤ metaLength := by
        simp [List.length_take]
      simp [List.drop_eq_nil_iff, this]
    refine ⟨_, hm, ?_⟩
    simp only [DecodeReq, hm, Option.some_bind, hs]
    rw [if_neg hcond]
    rw [hstart] at hbody ⊢
    rw [hver]
    simp [hbody]
  · intro q hq data hlen
    have hnlt : ¬ data.length < metaLength := by omega
    have hm : GetMeta data = some
        ⟨data.getD 0 0,
         toInt32 ((data.getD 1 0) <<< 24 ||| (data.getD 2 0) <<< 16 |||
           (data.getD 3 0) <<< 8 ||| (data.getD 4 0)),
         toInt32 ((data.getD 1 0) <<< 24 ||| (data.getD 2 0) <<< 16 |||
           (data.getD 3 0) <<< 8 ||| (data.getD 4 0))⟩ := by
      simp only [GetMeta, hnlt, if_false]
    have hdrop : data.drop metaLength = [] := by
      have : data.length ≤ metaLength := le_of_eq hlen
      simp [List.drop_eq_nil_iff, this]
    refine ⟨_, hm, ?_⟩
    simp only [DecodeReq, hm, Option.some_bind, hq]
    simp [hdrop]

/-- A signer accepting every signature, with signature length 2; used to
instantiate `C4_short_frame_boundaries` on concrete inputs. -/
def witSigner : SignerM :=
  { sigLen := 2, sign := fun _ => none, verify := fun _ _ => true }

/-- `trivialProtocol` with `witSigner` installed. -/
def witProtocol : PacketProtocol Unit :=
  { signer := some witSigner, cryptor := none,
    marshaler := { marshal := fun _ => none, unmarshal := fun _ => none } }

theorem C4_short_frame_boundaries_witness :
    DecodeReq witProtocol [0, 0, 0, 0, 0, 0, 0, 0, 0, 0] = none ∧
    (∃ m, GetMeta [0, 0, 0, 0, 0, 0, 0, 0, 0, 0, 0] = some m ∧
      DecodeReq witProtocol [0, 0, 0, 0, 0, 0, 0, 0, 0, 0, 0] =
        some (RequestPacket.mk m none)) ∧
    (∃ m, GetMeta [0, 0, 0, 0, 0, 0, 0, 0, 0] = some m ∧
      DecodeReq trivialProtocol [0, 0, 0, 0, 0, 0, 0, 0, 0] =
        some (RequestPacket.mk m none)) :=
  ⟨(C4_short_frame_boundaries witProtocol witSigner rfl (by decide)).1
      [0, 0, 0, 0, 0, 0, 0, 0, 0, 0] (by decide),
   (C4_short_frame_boundaries witProtocol witSigner rfl (by decide)).2.1
      [0, 0, 0, 0, 0, 0, 0, 0, 0, 0, 0] (by decide) (by decide),
   (C4_short_frame_boundaries witProtocol witSigner rfl (by decide)).2.2
      trivialProtocol rfl [0, 0, 0, 0, 0, 0, 0, 0, 0] (by decide)⟩

/-! ### Platforms and the connection hub (src/platform.go, Hub source) -/

/-- Platform constants from src/platform.go (small signed integers). -/
def Unspecify : Int := 0

def Android : Int := 1

def AndroidPad : Int := 2

def IPhone : Int := 3

def Mac : Int := 4

def IPad : Int := 5

def Windows : Int := 6

def Linux : Int := 7

def Web : Int := 8

def Harmony : Int := 9

/-- `Platforms` from src/platform.go line 20, embedded verbatim: the source
list contains `IPad` twice (and omits `Unspecify`). -/
def Platforms : List Int :=
  [Android, AndroidPad, IPhone, IPad, Mac, IPad, Windows, Linux, Web, Harmony]

/-- `Hub.PushMessage` (Hub source, src/unnamed/part_000 lines 326-341):
the list of enqueue operations performed on outbound queues, one element
`((userId, platform), data)` per send. `conns` is the key set of the
`connections` map (the live Lines). The source iterates the given
userIds and, for each, every entry of `Platforms`, sending `data` to
each live Line it finds. -/
def PushMessage (conns : List (String × Int)) (userIds : List String)
    (data : List Nat) : List ((String × Int) × List Nat) :=
  if userIds.length = 0 ∨ data.length = 0 then []
  else userIds.flatMap fun u => Platforms.filterMap fun p =>
    if (u, p) ∈ conns then some ((u, p), data) else none

/-- C9: a user with a live Line on the iPad platform receives every pushed
payload twice, because `Platforms` lists `IPad` twice: with one live
Line `("u", IPad)` and `userIds = ["u"]`, `PushMessage` enqueues the
payload two times on that Line's queue, where the claim requires exactly
once. -/
theorem C9_ipad_line_enqueued_twice :
    PushMessage [("u", IPad)] ["u"] [1] =
      [(("u", IPad), [1]), (("u", IPad), [1])] := by
  decide

/-! ### Replay defense (src/authenticator.go lines 325-346) -/

/-- Outcome of a fallible KV-store operation (Redis `SetNX`, `SIsMember`). -/
inductive KVResult where
  | ok (val : Bool)
  | err
deriving DecidableEq, Repr

/-- Outcome of the replay-defense middleware step. -/
inductive ReplayOutcome where
  | allow
  | abort400
  | abort500
deriving DecidableEq, Repr

/-- Decimal-digit run for `strconv.ParseInt`: every character must be a
digit and at least one must be present. -/
def parseDigits (cs : List Char) : Option Nat :=
  if cs.isEmpty then none
  else cs.foldl (fun acc c =>
    acc.bind fun n =>
      if c.isDigit then some (n * 10 + (c.toNat - 48)) else none)
    (some 0)

/-- Go `strconv.ParseInt(s, 10, 64)`: optional leading sign, decimal
digits, 64-bit range check (failure on overflow). -/
def parseInt64 (s : String) : Option Int :=
  match s.data with
  | [] => none
  | c :: rest =>
    if c = '-' then
      (parseDigits rest).bind fun n =>
        if n ≤ 9223372036854775808 then some (-(n : Int)) else none
    else if c = '+' then
      (parseDigits rest).bind fun n =>
        if n ≤ 9223372036854775807 then some ((n : Int)) else none
    else
      (parseDigits (c :: rest)).bind fun n =>
        if n ≤ 9223372036854775807 then some ((n : Int)) else none

/-- `Authenticator.checkReplay` (src/authenticator.go lines 325-346) with
the clock reading `now` and the KV `SetNX` outcome passed in: 400 when
the timestamp header fails to parse; 400 when `now - timestamp > 300`
(a one-sided check — the source never rejects future timestamps); then
500 on KV error, 400 when the nonce key was already present, otherwise
the request continues. -/
def checkReplay (now : Int) (timestamp : String) (setnx : KVResult) :
    ReplayOutcome :=
  match parseInt64 timestamp with
  | none => .abort400
  | some ts =>
    if now - ts > 300 then .abort400
    else match setnx with
      | .err => .abort500
      | .ok false => .abort400
      | .ok true => .allow

/-- C5 counterexample: a timestamp 301 seconds in the future (now
1000, header "1301") is let through by `checkReplay`, refuting the
claim that timestamps more than 300 s in the future are rejected. -/
theorem C5_future_timestamp_allowed :
    checkReplay 1000 "1301" (KVResult.ok true) = ReplayOutcome.allow := by
  decide

/-- C5 (amended): `checkReplay` continues exactly when the timestamp parses,
`now - timestamp ≤ 300` (the check is one-sided: future timestamps
always pass it) and the nonce set-if-absent succeeds; it aborts with 500
exactly on a KV error after a fresh-enough timestamp, and with 400 in
every remaining case (parse failure, `now - timestamp > 300`, or nonce
already present). In particular a timestamp exactly 300 s old is
accepted and one 301 s old is rejected. -/
theorem C5_replay_characterization (now : Int) (s : String)
    (kv : KVResult) :
    (checkReplay now s kv = .allow ↔
      ∃ ts, parseInt64 s = some ts ∧ now - ts ≤ 300 ∧ kv = .ok true) ∧
    (checkReplay now s kv = .abort500 ↔
      ∃ ts, parseInt64 s = some ts ∧ now - ts ≤ 300 ∧ kv = .err) ∧
    (checkReplay now s kv = .abort400 ↔
      (parseInt64 s = none ∨
       ∃ ts, parseInt64 s = some ts ∧
         (300 < now - ts ∨ (now - ts ≤ 300 ∧ kv = .ok false)))) := by
  cases hp : parseInt64 s with
  | none => simp [checkReplay, hp]
  | some ts =>
    by_cases hgt : 300 < now - ts
    · rcases kv with b | _ <;>
        simp [checkReplay, hp, hgt, not_le.mpr hgt] <;> omega
    · have hle : now - ts ≤ 300 := not_lt.mp hgt
      rcases kv with b | _
      · rcases b <;> simp [checkReplay, hp, not_lt.mp hgt, hle, hgt] <;>
          omega
      · simp [checkReplay, hp, not_lt.mp hgt, hle, hgt]
        omega

theorem C5_replay_characterization_witness :
    checkReplay 400 "100" (KVResult.ok true) = ReplayOutcome.allow ∧
    checkReplay 401 "100" (KVResult.ok true) = ReplayOutcome.abort400 :=
  ⟨((C5_replay_characterization 400 "100" (KVResult.ok true)).1).mpr
      ⟨100, by decide, by decide, rfl⟩,
   ((C5_replay_characterization 401 "100"
        (KVResult.ok true)).2.2).mpr
      (Or.inr ⟨100, by decide, Or.inl (by decide)⟩)⟩

/-! ### Response signing headers (src/authenticator.go lines 298-322) -/

/-- The response-header writes of `AuthenticateMiddleware` steps 9-10
(src/authenticator.go lines 314-321), with the freshly generated
timestamp and nonce, the computed signature string, the content type and
the body length passed in. Embedded verbatim from the source: line 315
writes `respTimestamp` under the name `X-Signature` and line 317 writes
the signature bytes under the name `X-Timestamp`. -/
def respHeaderWrites (respTimestamp respNonce respSignature
    respContentType : String) (respBodyLen : Nat) :
    List (String × String) :=
  [("X-Signature", respTimestamp),
   ("X-Nonce", respNonce),
   ("X-Timestamp", respSignature),
   ("Access-Control-Expose-Headers", "X-Timestamp,X-Nonce,X-Signature"),
   ("Content-Type", respContentType),
   ("Content-Length", toString respBodyLen)]

/-- C7: after handler invocation the middleware writes the fresh timestamp
under the `X-Signature` header and the signature under the `X-Timestamp`
header — the two values are swapped relative to the claim — while
`X-Nonce` and `Access-Control-Expose-Headers` are as claimed. Evaluated
at timestamp "1712000000000", nonce "0a1b", signature "s1g=". -/
theorem C7_signature_and_timestamp_headers_swapped :
    ((respHeaderWrites "1712000000000" "0a1b" "s1g=" "application/json"
        2).lookup "X-Signature" = some "1712000000000") ∧
    ((respHeaderWrites "1712000000000" "0a1b" "s1g=" "application/json"
        2).lookup "X-Timestamp" = some "s1g=") ∧
    ((respHeaderWrites "1712000000000" "0a1b" "s1g=" "application/json"
        2).lookup "X-Nonce" = some "0a1b") ∧
    ((respHeaderWrites "1712000000000" "0a1b" "s1g=" "application/json"
        2).lookup "Access-Control-Expose-Headers" =
      some "X-Timestamp,X-Nonce,X-Signature") := by
  decide

/-! ### Bearer-token verification
(src/authenticator.go lines 348-383 and 423-441) -/

/-- `CustomClaims` (src/authenticator.go lines 485-490) with the registered
claims it uses: issuer and expiry. -/
structure CustomClaims where
  userId : Int
  role : String
  platform : String
  issuer : String
  expiresAt : Int
deriving DecidableEq, Repr

/-- A bearer token as seen by the HMAC-SHA256 JWT library: its claims, the
secret it was signed with, and whether it is structurally well formed.
Captures the `jwt/v5` `ParseWithClaims` behaviour at the call site
src/authenticator.go lines 427-433: no `WithIssuer` or
`WithValidMethods` option is passed, so parsing checks the HMAC
signature against the key returned by the key function and the
registered time claims, and does not validate the issuer claim. -/
structure JwtToken where
  claims : CustomClaims
  signedWith : List Nat
  wellFormed : Bool
deriving DecidableEq, Repr

/-- `Authenticator.parseToken` (src/authenticator.go lines 423-441):
succeeds iff the token is well formed, its HMAC-SHA256 signature matches
the configured secret and it has not expired at `now`. The configured
issuer is not consulted. The empty-secret case panics in the source and
is modelled as failure. -/
def parseToken (jwtSecret : List Nat) (now : Int) (t : JwtToken) :
    Option CustomClaims :=
  if jwtSecret.isEmpty then none
  else if t.wellFormed ∧ t.signedWith = jwtSecret ∧
      now ≤ t.claims.expiresAt then some t.claims
  else none

/-- `Authenticator.IsTokenRevoked` (src/authenticator.go lines 466-473):
the pair (revoked, lookupFailed) — the source returns `false` together
with the error when the KV set-membership lookup fails. -/
def isTokenRevoked (r : KVResult) : Bool × Bool :=
  match r with
  | .ok b => (b, false)
  | .err => (false, true)

/-- Outcome of `verifyToken`: continue (with the claims exposed to the
handler, if any) or abort with an HTTP status. -/
inductive VerifyResult where
  | allow (claims : Option CustomClaims)
  | abort401
  | abort500
deriving DecidableEq, Repr

/-- `Authenticator.verifyToken` (src/authenticator.go lines 348-383), with
the extracted bearer token (`none` models an empty string after
trimming), the revocation-lookup outcome and the clock passed in.
`jwtIssuer` is the configured issuer — this function never consults it.
Auth-required path: absent token 401; lookup error 500; revoked 401;
parse failure 401; otherwise claims are exposed. Auth-optional path:
always continue, exposing claims only when a present token is reported
not revoked (`false` also on lookup error) and parses. -/
def verifyToken (jwtSecret : List Nat) (jwtIssuer : String) (now : Int)
    (needAuth : Bool) (bearer : Option JwtToken) (rev : KVResult) :
    VerifyResult :=
  if needAuth then
    match bearer with
    | none => .abort401
    | some t =>
      match rev with
      | .err => .abort500
      | .ok true => .abort401
      | .ok false =>
        match parseToken jwtSecret now t with
        | none => .abort401
        | some cl => .allow (some cl)
  else
    match bearer with
    | none => .allow none
    | some t =>
      if (isTokenRevoked rev).fst then .allow none
      else
        match parseToken jwtSecret now t with
        | none => .allow none
        | some cl => .allow (some cl)

/-- A well-signed, unexpired token whose issuer differs from the
configured one. -/
def otherIssuerToken : JwtToken :=
  { claims :=
      { userId := 1, role := "user", platform := "8",
        issuer := "other-issuer", expiresAt := 1000 },
    signedWith := [1, 2, 3], wellFormed := true }

/-- C8 counterexample: on an auth-required path, a token whose issuer
"other-issuer" differs from the configured issuer "configured-issuer"
but whose HMAC signature is valid and which is unexpired is accepted —
`verifyToken` continues and exposes its claims instead of aborting with
401 as the claim requires. -/
theorem C8_other_issuer_token_accepted :
    verifyToken [1, 2, 3] "configured-issuer" 0 true
        (some otherIssuerToken) (KVResult.ok false) =
      VerifyResult.allow (some otherIssuerToken.claims) := by
  decide

/-- C8 (amended): on an auth-required path `verifyToken` aborts with 401
exactly when the token is absent, reported revoked, or fails to parse as
a valid HMAC-SHA256 JWT under the configured secret (the configured
issuer is never consulted: the result is invariant under changing it);
it aborts with 500 exactly when the revocation lookup fails; and it
continues exposing exactly the parsed claims otherwise. -/
theorem C8_auth_required_characterization (secret : List Nat)
    (issuer : String) (now : Int) (bearer : Option JwtToken)
    (rev : KVResult) :
    (verifyToken secret issuer now true bearer rev = .abort401 ↔
      (bearer = none ∨
       (∃ t, bearer = some t ∧ rev = .ok true) ∨
       (∃ t, bearer = some t ∧ rev = .ok false ∧
          parseToken secret now t = none))) ∧
    (verifyToken secret issuer now true bearer rev = .abort500 ↔
      ∃ t, bearer = some t ∧ rev = .err) ∧
    (∀ cl, verifyToken secret issuer now true bearer rev =
        .allow (some cl) ↔
      ∃ t, bearer = some t ∧ rev = .ok false ∧
        parseToken secret now t = some cl) ∧
    (∀ issuer2, verifyToken secret issuer2 now true bearer rev =
        verifyToken secret issuer now true bearer rev) := by
  rcases bearer with _ | t
  · simp [verifyToken]
  · rcases rev with b | _
    · rcases b
      · cases hpt : parseToken secret now t <;>
          simp [verifyToken, hpt]
      · simp [verifyToken]
    · simp [verifyToken]

/-- C10: on a path that does not require authentication `verifyToken`
never aborts — missing, revoked or unparseable tokens and failed
revocation lookups all continue — and claims are exposed exactly when a
token is present, the revocation lookup reports it not revoked (which
includes the lookup-error case, where the source discards the error and
uses the returned `false`), and the token parses as valid. -/
theorem C10_optional_path_never_aborts (secret : List Nat)
    (issuer : String) (now : Int) (bearer : Option JwtToken)
    (rev : KVResult) :
    (∃ copt, verifyToken secret issuer now false bearer rev =
        .allow copt) ∧
    (∀ cl, verifyToken secret issuer now false bearer rev =
        .allow (some cl) ↔
      ∃ t, bearer = some t ∧ (isTokenRevoked rev).fst = false ∧
        parseToken secret now t = some cl) := by
  rcases bearer with _ | t
  · simp [verifyToken]
  · rcases hrv : (isTokenRevoked rev).fst
    · cases hpt : parseToken secret now t <;>
        simp [verifyToken, hrv, hpt]
    · simp [verifyToken, hrv]

/-! ### Canonical signing block (src/authenticator.go lines 196-210) -/

/-- Lexicographic ≤ on character lists by code point; on UTF-8 data this is
exactly Go's byte-wise string order used by `sort.Strings`. -/
def byteListLe : List Char → List Char → Bool
  | [], _ => true
  | _ :: _, [] => false
  | a :: as, b :: bs =>
    if a = b then byteListLe as bs
    else decide (a.toNat < b.toNat)

/-- Go string ≤ (the `sort.Strings` order). -/
def goStrLe (a b : String) : Bool := byteListLe a.data b.data

theorem charToNat_inj {a b : Char} (h : a.toNat = b.toNat) : a = b :=
  Char.eq_of_val_eq (UInt32.ext h)

theorem byteListLe_total : ∀ as bs : List Char,
    byteListLe as bs = true ∨ byteListLe bs as = true := by
  intro as
  induction as with
  | nil => intro bs; left; rfl
  | cons a as ih =>
    intro bs
    cases bs with
    | nil => right; rfl
    | cons b bs =>
      by_cases hab : a = b
      · subst hab
        rcases ih bs with h | h
        · left; simpa [byteListLe] using h
        · right; simpa [byteListLe] using h
      · have hne : a.toNat ≠ b.toNat := fun h => hab (charToNat_inj h)
        have hba : ¬ b = a := fun h => hab h.symm
        simp only [byteListLe, if_neg hab, if_neg hba, decide_eq_true_eq]
        omega

theorem byteListLe_trans : ∀ as bs cs : List Char,
    byteListLe as bs = true → byteListLe bs cs = true →
    byteListLe as cs = true := by
  intro as
  induction as with
  | nil => intro bs cs _ _; rfl
  | cons a as ih =>
    intro bs cs h1 h2
    cases bs with
    | nil => simp [byteListLe] at h1
    | cons b bs =>
      cases cs with
      | nil => simp [byteListLe] at h2
      | cons c cs =>
        by_cases hab : a = b <;> by_cases hbc : b = c
        · subst hab; subst hbc
          simp only [byteListLe, if_pos rfl] at h1 h2 ⊢
          exact ih bs cs h1 h2
        · subst hab
          simp only [byteListLe, if_pos rfl, if_neg hbc,
            decide_eq_true_eq] at h2
          have hac : ¬ a = c := by
            intro h
            subst h
            omega
          simp only [byteListLe, if_neg hac, decide_eq_true_eq]
          omega
        · subst hbc
          simp only [byteListLe, if_neg hab, decide_eq_true_eq] at h1 ⊢
          exact h1
        · simp only [byteListLe, if_neg hab, if_neg hbc,
            decide_eq_true_eq] at h1 h2
          have hac : ¬ a = c := by
            intro h
            subst h
            omega
          simp only [byteListLe, if_neg hac, decide_eq_true_eq]
          omega

theorem byteListLe_antisymm : ∀ as bs : List Char,
    byteListLe as bs = true → byteListLe bs as = true → as = bs := by
  intro as
  induction as with
  | nil =>
    intro bs h1 h2
    cases bs with
    | nil => rfl
    | cons b bs => simp [byteListLe] at h2
  | cons a as ih =>
    intro bs h1 h2
    cases bs with
    | nil => simp [byteListLe] at h1
    | cons b bs =>
      by_cases hab : a = b
      · subst hab
        simp only [byteListLe, if_pos rfl] at h1 h2
        rw [ih bs h1 h2]
      · have hba : ¬ b = a := fun h => hab h.symm
        simp only [byteListLe, if_neg hab, if_neg hba,
          decide_eq_true_eq] at h1 h2
        omega

instance : IsTotal String (fun a b => goStrLe a b = true) :=
  ⟨fun a b => byteListLe_total a.data b.data⟩

instance : IsTrans String (fun a b => goStrLe a b = true) :=
  ⟨fun _ _ _ h1 h2 => byteListLe_trans _ _ _ h1 h2⟩

instance : IsAntisymm String (fun a b => goStrLe a b = true) :=
  ⟨fun a b h1 h2 => by
    cases a
    cases b
    exact congrArg String.mk (byteListLe_antisymm _ _ h1 h2)⟩

instance : IsTotal (String × String) (fun x y => goStrLe x.fst y.fst = true) :=
  ⟨fun x y => byteListLe_total x.fst.data y.fst.data⟩

instance : IsTrans (String × String) (fun x y => goStrLe x.fst y.fst = true) :=
  ⟨fun _ _ _ h1 h2 => byteListLe_trans _ _ _ h1 h2⟩

/-- Go map indexing `params[k]` (zero value `""` when absent). -/
def goMapLookup (k : String) (params : List (String × String)) : String :=
  match params.find? (fun kv => kv.fst == k) with
  | some kv => kv.snd
  | none => ""

/-- `Authenticator.stringfySignData` (src/authenticator.go lines 196-210):
collect the keys of the parameter map, sort them ascending with Go's
string order, and emit one `key=value` line per key, each terminated by
a newline, looking each value up in the map. -/
def stringfySignData (params : List (String × String)) : String :=
  let keys := params.map Prod.fst
  let sortedKeys := keys.insertionSort (fun a b => goStrLe a b = true)
  sortedKeys.foldl
    (fun b k => b ++ k ++ "=" ++ goMapLookup k params ++ "\n") ""

/-- The canonical block as the spec words it: the (key, value) pairs sorted
ascending by field name, rendered as newline-terminated `key=value`
lines and concatenated. -/
def canonicalBlockSpec (params : List (String × String)) : String :=
  String.join
    ((params.insertionSort (fun x y => goStrLe x.fst y.fst = true)).map
      fun kv => kv.fst ++ "=" ++ kv.snd ++ "\n")

theorem foldl_congr_mem {α β : Type} : ∀ (l : List α) (acc : β)
    (h1 h2 : β → α → β), (∀ b x, x ∈ l → h1 b x = h2 b x) →
    l.foldl h1 acc = l.foldl h2 acc := by
  intro l
  induction l with
  | nil => intro acc h1 h2 _; rfl
  | cons x xs ih =>
    intro acc h1 h2 hcong
    simp only [List.foldl_cons]
    rw [hcong acc x (List.mem_cons_self x xs)]
    exact ih _ h1 h2 fun b y hy => hcong b y (List.mem_cons_of_mem x hy)

theorem goMapLookup_of_mem : ∀ (params : List (String × String)),
    (params.map Prod.fst).Nodup → ∀ kv : String × String, kv ∈ params →
    goMapLookup kv.fst params = kv.snd := by
  intro params
  induction params with
  | nil => intro _ kv hkv; cases hkv
  | cons p ps ih =>
    intro hnd kv hkv
    simp only [List.map_cons, List.nodup_cons] at hnd
    rcases List.mem_cons.mp hkv with heq | hmem
    · subst heq
      simp [goMapLookup, List.find?]
    · have hne : (p.fst == kv.fst) = false := by
        rw [beq_eq_false_iff_ne]
        intro h
        exact hnd.1 (h ▸ List.mem_map_of_mem Prod.fst hmem)
      have hstep : goMapLookup kv.fst (p :: ps) = goMapLookup kv.fst ps := by
        simp [goMapLookup, List.find?, hne]
      rw [hstep]
      exact ih hnd.2 kv hmem

theorem sorted_pair_keys_eq (params : List (String × String)) :
    (params.insertionSort (fun x y => goStrLe x.fst y.fst = true)).map
        Prod.fst =
      (params.map Prod.fst).insertionSort (fun a b => goStrLe a b = true) :=
  List.eq_of_perm_of_sorted
    (((List.perm_insertionSort _ params).map Prod.fst).trans
      (List.perm_insertionSort _ (params.map Prod.fst)).symm)
    (@List.Pairwise.map String (String × String)
      (fun x y => goStrLe x.fst y.fst = true)
      (params.insertionSort (fun x y => goStrLe x.fst y.fst = true))
      (fun a b => goStrLe a b = true) Prod.fst (fun _ _ h => h)
      (List.sorted_insertionSort _ params))
    (List.sorted_insertionSort _ _)

theorem join_map_eq_foldl {α : Type} (f : α → String) (l : List α) :
    String.join (l.map f) = l.foldl (fun b x => b ++ f x) "" := by
  simp [String.join, List.foldl_map]

theorem stringfySignData_eq_spec (params : List (String × String))
    (hnd : (params.map Prod.fst).Nodup) :
    stringfySignData params = canonicalBlockSpec params := by
  simp only [stringfySignData, canonicalBlockSpec]
  rw [← sorted_pair_keys_eq, join_map_eq_foldl, List.foldl_map]
  refine foldl_congr_mem _ _ _ _ ?_
  intro b kv hkv
  have hmem : kv ∈ params :=
    (List.perm_insertionSort _ params).mem_iff.mp hkv
  rw [goMapLookup_of_mem params hnd kv hmem]
  simp [String.append_assoc]

theorem sorted_keys_perm_eq (params params2 : List (String × String))
    (hp : params.Perm params2) :
    (params.map Prod.fst).insertionSort (fun a b => goStrLe a b = true) =
      (params2.map Prod.fst).insertionSort
        (fun a b => goStrLe a b = true) :=
  List.eq_of_perm_of_sorted
    ((List.perm_insertionSort _ _).trans
      ((hp.map Prod.fst).trans (List.perm_insertionSort _ _).symm))
    (List.sorted_insertionSort _ _)
    (List.sorted_insertionSort _ _)

theorem goMapLookup_perm (params params2 : List (String × String))
    (hp : params.Perm params2) (hnd : (params.map Prod.fst).Nodup)
    (k : String) (hk : k ∈ params.map Prod.fst) :
    goMapLookup k params = goMapLookup k params2 := by
  have hnd2 : (params2.map Prod.fst).Nodup :=
    ((hp.map Prod.fst).nodup_iff).mp hnd
  obtain ⟨kv, hkv, hfst⟩ := List.mem_map.mp hk
  have h1 : goMapLookup k params = kv.snd := by
    rw [← hfst]
    exact goMapLookup_of_mem params hnd kv hkv
  have h2 : goMapLookup k params2 = kv.snd := by
    rw [← hfst]
    exact goMapLookup_of_mem params2 hnd2 kv (hp.subset hkv)
  rw [h1, h2]

theorem stringfySignData_perm (params params2 : List (String × String))
    (hp : params.Perm params2) (hnd : (params.map Prod.fst).Nodup) :
    stringfySignData params = stringfySignData params2 := by
  simp only [stringfySignData]
  rw [← sorted_keys_perm_eq params params2 hp]
  refine foldl_congr_mem _ _ _ _ ?_
  intro b k hk
  have hk2 : k ∈ params.map Prod.fst :=
    (List.perm_insertionSort _ _).mem_iff.mp hk
  rw [goMapLookup_perm params params2 hp hnd k hk2]

/-- C6: the canonical signing byte sequence of a parameter map (distinct
keys) equals the concatenation, in ascending Go string order of field
name, of one newline-terminated `key=value` line per field; on the seven
request fields the lines appear in the order body, method, nonce, path,
platform, query, timestamp; and any two orderings of the same map
produce the same bytes. -/
theorem C6_canonical_block_ordered :
    (∀ params : List (String × String), (params.map Prod.fst).Nodup →
        stringfySignData params = canonicalBlockSpec params) ∧
    (∀ bodyV methodV nonceV pathV platformV queryV tsV : String,
        stringfySignData
          [("nonce", nonceV), ("timestamp", tsV), ("platform", platformV),
           ("method", methodV), ("path", pathV), ("query", queryV),
           ("body", bodyV)] =
        "body" ++ "=" ++ bodyV ++ "\n" ++ "method" ++ "=" ++ methodV ++
          "\n" ++ "nonce" ++ "=" ++ nonceV ++ "\n" ++ "path" ++ "=" ++
          pathV ++ "\n" ++ "platform" ++ "=" ++ platformV ++ "\n" ++
          "query" ++ "=" ++ queryV ++ "\n" ++ "timestamp" ++ "=" ++
          tsV ++ "\n") ∧
    (∀ params params2 : List (String × String), params.Perm params2 →
        (params.map Prod.fst).Nodup →
        stringfySignData params = stringfySignData params2) :=
  ⟨stringfySignData_eq_spec,
   fun _ _ _ _ _ _ _ => rfl,
   fun params params2 hp hnd => stringfySignData_perm params params2 hp hnd⟩

theorem C6_canonical_block_ordered_witness :
    stringfySignData [("b", "2"), ("a", "1")] =
        canonicalBlockSpec [("b", "2"), ("a", "1")] ∧
    stringfySignData [("b", "2"), ("a", "1")] =
        stringfySignData [("a", "1"), ("b", "2")] :=
  ⟨C6_canonical_block_ordered.1 [("b", "2"), ("a", "1")] (by decide),
   C6_canonical_block_ordered.2.2 [("b", "2"), ("a", "1")]
      [("a", "1"), ("b", "2")] (by decide) (by decide)⟩

end Niu
